import Mathlib

/-!
Verification of the Secure-P2P-Storage peer-to-peer encrypted storage
engine against its natural-language specification.

The development shallowly embeds the program's data model and operations:

* byte strings are `List Nat` (each entry one byte value);
* SHA-256, its hex digest and base64 are implemented concretely, exactly
  as the standard algorithms the program calls through `hashlib` and
  `base64` (validated below against the standard test vectors);
* the erasure codec (`src/p2p/erasure.py`) is embedded with the external
  `zfec` encoder/decoder pair as parameters of the `ErasureCoder`
  structure; theorems about the codec state zfec's documented contract
  (systematic (k, n) code, any k shards reconstruct the chunks) as
  hypotheses at the instance used;
* likewise the AES-GCM cipher and the PBKDF2 key derivation used by
  `src/shared/crypto.py` are fields of a `CryptoPrim` structure, and each
  theorem states the cryptographic property it relies on (tag verification
  fails under the wrong key) as a hypothesis;
* the stateful storage manager (`src/p2p/storage.py`), the coordinator's
  file registry (`src/coordinator/server.py`) and the node identity file
  (`src/p2p/node.py`) become pure state-passing functions over explicit
  state records; fresh randomness (salts, nonces, key pairs) and the
  current time are passed as explicit arguments.
-/

set_option maxRecDepth 8000

/-! ## Byte-level utilities -/

/-- Reduce a number to a 32-bit word, as Python's fixed-width SHA-256
arithmetic does implicitly. -/
def w32 (n : Nat) : Nat := n % 4294967296

/-- Right rotation of a 32-bit word. -/
def rotr32 (n x : Nat) : Nat := w32 ((x >>> n) ||| (x <<< (32 - n)))

/-- The SHA-256 choice function; complement is XOR with the all-ones word. -/
def shaCh (x y z : Nat) : Nat := (x &&& y) ^^^ ((x ^^^ 4294967295) &&& z)

/-- The SHA-256 majority function. -/
def shaMaj (x y z : Nat) : Nat := (x &&& y) ^^^ (x &&& z) ^^^ (y &&& z)

/-- SHA-256 big sigma 0. -/
def bigSigma0 (x : Nat) : Nat := rotr32 2 x ^^^ rotr32 13 x ^^^ rotr32 22 x

/-- SHA-256 big sigma 1. -/
def bigSigma1 (x : Nat) : Nat := rotr32 6 x ^^^ rotr32 11 x ^^^ rotr32 25 x

/-- SHA-256 small sigma 0. -/
def smallSigma0 (x : Nat) : Nat := rotr32 7 x ^^^ rotr32 18 x ^^^ (x >>> 3)

/-- SHA-256 small sigma 1. -/
def smallSigma1 (x : Nat) : Nat := rotr32 17 x ^^^ rotr32 19 x ^^^ (x >>> 10)

/-- The 64 SHA-256 round constants (fractional parts of the cube roots of
the first 64 primes). -/
def shaK : List Nat := [1116352408, 1899447441, 3049323471, 3921009573, 961987163, 1508970993, 2453635748, 2870763221, 3624381080, 310598401, 607225278, 1426881987, 1925078388, 2162078206, 2614888103, 3248222580, 3835390401, 4022224774, 264347078, 604807628, 770255983, 1249150122, 1555081692, 1996064986, 2554220882, 2821834349, 2952996808, 3210313671, 3336571891, 3584528711, 113926993, 338241895, 666307205, 773529912, 1294757372, 1396182291, 1695183700, 1986661051, 2177026350, 2456956037, 2730485921, 2820302411, 3259730800, 3345764771, 3516065817, 3600352804, 4094571909, 275423344, 430227734, 506948616, 659060556, 883997877, 958139571, 1322822218, 1537002063, 1747873779, 1955562222, 2024104815, 2227730452, 2361852424, 2428436474, 2756734187, 3204031479, 3329325298]

/-- The eight 32-bit words of SHA-256 working state. -/
structure Sha256State where
  a : Nat
  b : Nat
  c : Nat
  d : Nat
  e : Nat
  f : Nat
  g : Nat
  h : Nat

/-- The SHA-256 initial hash value. -/
def shaH0 : Sha256State := ⟨1779033703, 3144134277, 1013904242, 2773480762, 1359893119, 2600822924, 528734635, 1541459225⟩

/-- Big-endian conversion of a byte list to a word. -/
def toWordBE (bs : List Nat) : Nat := bs.foldl (fun acc b => acc * 256 + b) 0

/-- The four big-endian bytes of a 32-bit word. -/
def wordBytesBE (n : Nat) : List Nat := [(n >>> 24) % 256, (n >>> 16) % 256, (n >>> 8) % 256, n % 256]

/-- The eight big-endian bytes of a 64-bit word. -/
def bytes64BE (n : Nat) : List Nat :=
  (List.range 8).map (fun i => (n >>> (8 * (7 - i))) % 256)

/-- SHA-256 padding: a 0x80 byte, zeros to 56 mod 64, and the bit length. -/
def shaPad (msg : List Nat) : List Nat :=
  msg ++ [128] ++ List.replicate ((119 - msg.length % 64) % 64) 0 ++ bytes64BE (8 * msg.length)

/-- The 64-entry SHA-256 message schedule of one 64-byte block. -/
def shaSchedule (block : List Nat) : List Nat :=
  let w0 := (List.range 16).map (fun i => toWordBE ((block.drop (4 * i)).take 4))
  (List.range 48).foldl (fun w _ =>
    let t := w.length
    w ++ [w32 (w.getD (t - 16) 0 + smallSigma0 (w.getD (t - 15) 0) +
               w.getD (t - 7) 0 + smallSigma1 (w.getD (t - 2) 0))]) w0

/-- The SHA-256 compression function over one 64-byte block. -/
def shaCompress (hs : Sha256State) (block : List Nat) : Sha256State :=
  let w := shaSchedule block
  let st := (List.range 64).foldl (fun st t =>
    let t1 := w32 (st.h + bigSigma1 st.e + shaCh st.e st.f st.g + shaK.getD t 0 + w.getD t 0)
    let t2 := w32 (bigSigma0 st.a + shaMaj st.a st.b st.c)
    ⟨w32 (t1 + t2), st.a, st.b, st.c, w32 (st.d + t1), st.e, st.f, st.g⟩) hs
  ⟨w32 (hs.a + st.a), w32 (hs.b + st.b), w32 (hs.c + st.c), w32 (hs.d + st.d),
   w32 (hs.e + st.e), w32 (hs.f + st.f), w32 (hs.g + st.g), w32 (hs.h + st.h)⟩

/-- The final SHA-256 state over a byte string. -/
def sha256Words (msg : List Nat) : Sha256State :=
  let padded := shaPad msg
  ((List.range (padded.length / 64)).map (fun i => (padded.drop (64 * i)).take 64)).foldl
    shaCompress shaH0

/-- SHA-256 of a byte string, as the 32 digest bytes (the algorithm behind
every `hashlib.sha256` call in the program; validated against the standard
test vectors in `sha256_empty_vector` and `sha256_abc_vector` below). -/
def sha256 (msg : List Nat) : List Nat :=
  wordBytesBE (sha256Words msg).a ++ wordBytesBE (sha256Words msg).b ++
  wordBytesBE (sha256Words msg).c ++ wordBytesBE (sha256Words msg).d ++
  wordBytesBE (sha256Words msg).e ++ wordBytesBE (sha256Words msg).f ++
  wordBytesBE (sha256Words msg).g ++ wordBytesBE (sha256Words msg).h

/-- The sixteen lowercase hex digits. -/
def hexDigits : List Char := "0123456789abcdef".toList

/-- Two lowercase hex characters of one byte. -/
def byteHexChars (b : Nat) : List Char := [hexDigits.getD (b / 16) '0', hexDigits.getD (b % 16) '0']

/-- Python's `hashlib.sha256(bs).hexdigest()`: the lowercase hex digest. -/
def sha256Hex (bs : List Nat) : String := String.mk ((sha256 bs).map byteHexChars).flatten

/-- The standard base64 alphabet (`base64.b64encode`; positions 62 and 63
are the plus sign and the slash, which URL-safe base64 replaces). -/
def b64Alphabet : List Char := "ABCDEFGHIJKLMNOPQRSTUVWXYZabcdefghijklmnopqrstuvwxyz0123456789+/".toList

/-- The standard base64 character of a 6-bit group. -/
def b64CharOf (n : Nat) : Char := b64Alphabet.getD n 'A'

/-- Standard base64 of a byte string (`base64.b64encode`), three input
bytes to four output characters, with `=` padding. -/
def b64Chars : List Nat → List Char
  | [] => []
  | [a] => [b64CharOf (a >>> 2), b64CharOf ((a &&& 3) <<< 4), '=', '=']
  | [a, b] => [b64CharOf (a >>> 2), b64CharOf (((a &&& 3) <<< 4) ||| (b >>> 4)),
               b64CharOf ((b &&& 15) <<< 2), '=']
  | a :: b :: c :: rest =>
      b64CharOf (a >>> 2) :: b64CharOf (((a &&& 3) <<< 4) ||| (b >>> 4)) ::
      b64CharOf (((b &&& 15) <<< 2) ||| (c >>> 6)) :: b64CharOf (c &&& 63) :: b64Chars rest

/-- Python's `bytes.rstrip(b"\x00")`: remove every trailing zero byte. -/
def rstripZeros (l : List Nat) : List Nat := (l.reverse.dropWhile (· == 0)).reverse

/-! ## Erasure codec (src/p2p/erasure.py)

`ErasureCoder.__init__` builds a `zfec.Encoder(k, n)` and a
`zfec.Decoder(k, n)`; those two external codec functions are the `fec` and
`decoder` fields here. Everything else is the file's own code. -/

/-- The erasure coder: `required_shards` = k, `total_shards` = n, and the
zfec encoder/decoder pair held in `self.fec` / `self.decoder`. -/
structure ErasureCoder where
  required_shards : Nat
  total_shards : Nat
  fec : List (List Nat) → List (List Nat)
  decoder : List (List Nat) → List Nat → List (List Nat)

/-- The zero-byte pad amount `(k - len(data) % k) % k` computed by
`ErasureCoder.encode`. -/
def erasurePaddingLength (k len : Nat) : Nat := (k - len % k) % k

/-- The padded buffer `data + b"\x00" * padding_length`. -/
def ErasureCoder.paddedData (c : ErasureCoder) (data : List Nat) : List Nat :=
  data ++ List.replicate (erasurePaddingLength c.required_shards data.length) 0

/-- The `required_shards` equal slices `padded_data[i*chunk_size:(i+1)*chunk_size]`. -/
def ErasureCoder.chunks (c : ErasureCoder) (data : List Nat) : List (List Nat) :=
  let chunk_size := (c.paddedData data).length / c.required_shards
  (List.range c.required_shards).map
    (fun i => ((c.paddedData data).drop (i * chunk_size)).take chunk_size)

/-- `ErasureCoder.encode`: pad, split into k chunks, apply the codec. -/
def ErasureCoder.encode (c : ErasureCoder) (data : List Nat) : List (List Nat) :=
  c.fec (c.chunks data)

/-- The decode failure (`ValueError("Need at least {k} shards, got {got}")`),
the spec's InsufficientShards. -/
inductive ErasureError where
  | insufficientShards (needed got : Nat)
deriving DecidableEq

/-- `ErasureCoder.decode`: drop absent shards, fail below k, decode, join
the chunks, strip trailing zero bytes. -/
def ErasureCoder.decode (c : ErasureCoder) (shards : List (Nat × Option (List Nat))) :
    Except ErasureError (List Nat) :=
  let valid_shards := shards.filterMap (fun p => p.2.map (fun s => (p.1, s)))
  if valid_shards.length < c.required_shards then
    .error (.insufficientShards c.required_shards valid_shards.length)
  else
    .ok (rstripZeros (c.decoder (valid_shards.map Prod.snd) (valid_shards.map Prod.fst)).flatten)

/-- Bytewise XOR of two equal-length byte strings, for the concrete (2, 3)
parity codec used to witness the codec-contract hypotheses. -/
def zipXor (a b : List Nat) : List Nat := List.zipWith (fun x y => x ^^^ y) a b

/-- A concrete systematic (2, 3) MDS codec (two data shards and an XOR
parity shard; any two shards reconstruct both chunks), standing in for a
`zfec.Encoder(2, 3)` / `zfec.Decoder(2, 3)` pair in witnesses. -/
def xorCoder : ErasureCoder where
  required_shards := 2
  total_shards := 3
  fec := fun chunks => chunks ++ [zipXor (chunks.getD 0 []) (chunks.getD 1 [])]
  decoder := fun blocks idxs =>
    if idxs = [0, 1] ∨ idxs = [0, 1, 2] then [blocks.getD 0 [], blocks.getD 1 []]
    else if idxs = [0, 2] then [blocks.getD 0 [], zipXor (blocks.getD 0 []) (blocks.getD 1 [])]
    else if idxs = [1, 2] then [zipXor (blocks.getD 0 []) (blocks.getD 1 []), blocks.getD 0 []]
    else []

/-! ## Crypto primitives (src/shared/crypto.py) and the file encryptor
(src/p2p/encryption.py)

`CryptoUtils` calls PBKDF2-HMAC-SHA256 and AES-256-GCM through the
`cryptography` library; the two external primitives are the fields of
`CryptoPrim`. `encrypt_data` draws a fresh random nonce and `derive_key` a
fresh random salt; both are explicit arguments here. -/

/-- The external cryptographic primitives `src/shared/crypto.py` calls:
`pbkdf2_sha256 password salt` is the 32-byte PBKDF2 key, `aesgcm_encrypt
key nonce plaintext` the ciphertext with the 16-byte GCM tag appended, and
`aesgcm_decrypt key nonce ciphertext` the plaintext, or `none` when the
tag does not verify (the library's `InvalidTag`). -/
structure CryptoPrim where
  pbkdf2_sha256 : String → List Nat → List Nat
  aesgcm_encrypt : List Nat → List Nat → List Nat → List Nat
  aesgcm_decrypt : List Nat → List Nat → List Nat → Option (List Nat)

/-- `CryptoUtils.derive_key(password, salt)`: the PBKDF2 key and the salt. -/
def CryptoUtils.derive_key (cp : CryptoPrim) (password : String) (salt : List Nat) :
    List Nat × List Nat :=
  (cp.pbkdf2_sha256 password salt, salt)

/-- The dict `{ciphertext, nonce, tag}` returned by `CryptoUtils.encrypt_data`. -/
structure EncryptedObj where
  ciphertext : List Nat
  nonce : List Nat
  tag : List Nat

/-- `CryptoUtils.encrypt_data(data, key)` with the fresh 12-byte nonce as
an argument; the tag field is `encrypted_data[-16:]`. -/
def CryptoUtils.encrypt_data (cp : CryptoPrim) (data key nonce : List Nat) : EncryptedObj :=
  let encrypted_data := cp.aesgcm_encrypt key nonce data
  ⟨encrypted_data, nonce, encrypted_data.drop (encrypted_data.length - 16)⟩

/-- `CryptoUtils.decrypt_data`: AES-GCM open of `{ciphertext, nonce}`;
`none` is the library's `InvalidTag` exception. -/
def CryptoUtils.decrypt_data (cp : CryptoPrim) (ciphertext nonce key : List Nat) :
    Option (List Nat) :=
  cp.aesgcm_decrypt key nonce ciphertext

/-- The metadata dict built by `FileEncryptor.encrypt_file`. -/
structure EncFileMetadata where
  salt : List Nat
  nonce : List Nat
  original_size : Nat
  encrypted_size : Nat
  encryption_scheme : String

/-- The one failure `FileEncryptor.decrypt_file` raises
(`ValueError("Decryption failed - incorrect password or corrupted data")`),
the spec's Integrity error. -/
inductive DecryptError where
  | integrity
deriving DecidableEq

/-- `FileEncryptor.encrypt_file(file_data, password)` with the fresh salt
and nonce as arguments: derive the key, encrypt, build the metadata. -/
def FileEncryptor.encrypt_file (cp : CryptoPrim) (file_data : List Nat) (password : String)
    (salt nonce : List Nat) : List Nat × EncFileMetadata :=
  let key := (CryptoUtils.derive_key cp password salt).1
  let encrypted_obj := CryptoUtils.encrypt_data cp file_data key nonce
  (encrypted_obj.ciphertext,
   ⟨salt, encrypted_obj.nonce, file_data.length, encrypted_obj.ciphertext.length, "AES-256-GCM"⟩)

/-- `FileEncryptor.decrypt_file(encrypted_data, password, metadata)`:
re-derive the key from the password and the metadata's salt, open with the
metadata's nonce; any failure is re-raised as the one Integrity error. -/
def FileEncryptor.decrypt_file (cp : CryptoPrim) (encrypted_data : List Nat) (password : String)
    (metadata : EncFileMetadata) : Except DecryptError (List Nat) :=
  let key := (CryptoUtils.derive_key cp password metadata.salt).1
  match CryptoUtils.decrypt_data cp encrypted_data metadata.nonce key with
  | some decrypted_data => .ok decrypted_data
  | none => .error .integrity

/-- A concrete primitive instance for witnesses: the key is the password's
code points followed by the salt, encryption prepends the key, decryption
checks that prefix (so a wrong key fails exactly like a bad tag). -/
def taggingPrim : CryptoPrim where
  pbkdf2_sha256 := fun password salt => password.data.map Char.toNat ++ salt
  aesgcm_encrypt := fun key _nonce pt => key ++ pt
  aesgcm_decrypt := fun key _nonce ct =>
    if key.length ≤ ct.length ∧ ct.take key.length = key then some (ct.drop key.length) else none

/-! ## Storage manager (src/p2p/storage.py)

The state is the shard directory (one `StoredShardFile` per `.shard` file,
in directory-listing order), the `shards` table and the singleton
`storage_stats` row. Timestamps are abstract `Nat` instants passed in as
`now`. The shard filename is `{file_hash}_{shard_index}_{shard_hash}.shard`;
its three fields are the record's first three components. -/

/-- One `.shard` file: the three filename fields and the bytes on disk. -/
structure StoredShardFile where
  file_hash : String
  shard_index : Nat
  name_hash : String
  content : List Nat
deriving DecidableEq

/-- One row of the `shards` table. -/
structure ShardRow where
  shard_hash : String
  file_hash : String
  shard_index : Nat
  size_bytes : Int
  peer_id : Option String
  expires_at : Option Nat
  last_verified : Option Nat
deriving DecidableEq

/-- The singleton `storage_stats` row. -/
structure StorageStats where
  total_shards : Int
  total_bytes : Int
  last_gc : Option Nat
deriving DecidableEq

/-- The storage manager's on-disk state: shard files, index rows, stats. -/
structure StorageState where
  files : List StoredShardFile
  rows : List ShardRow
  stats : StorageStats
deriving DecidableEq

/-- The storage failure `Exception("Storage quota exceeded")`, the spec's
QuotaExceeded. -/
inductive StorageError where
  | quotaExceeded
deriving DecidableEq

/-- `StorageManager._check_quota`: `total_bytes + additional <= max`. -/
def StorageManager.check_quota (max_storage_bytes : Int) (st : StorageState)
    (additional_bytes : Int) : Bool :=
  st.stats.total_bytes + additional_bytes ≤ max_storage_bytes

/-- `StorageManager._update_stats`: a positive delta counts one shard in,
any other delta counts one shard out; `total_bytes` moves by the delta. -/
def StorageManager.update_stats (s : StorageStats) (size_delta : Int) : StorageStats :=
  if size_delta > 0 then
    { s with total_shards := s.total_shards + 1, total_bytes := s.total_bytes + size_delta }
  else
    { s with total_shards := s.total_shards - 1, total_bytes := s.total_bytes + size_delta }

/-- Writing `open(filepath, "wb")`: replace the file of the same name if
present, otherwise add it at the end of the directory. -/
def writeShardFile (files : List StoredShardFile) (f : StoredShardFile) : List StoredShardFile :=
  if files.any (fun g => g.file_hash == f.file_hash && g.shard_index == f.shard_index &&
                         g.name_hash == f.name_hash) then
    files.map (fun g =>
      if g.file_hash == f.file_hash && g.shard_index == f.shard_index &&
         g.name_hash == f.name_hash then f else g)
  else files ++ [f]

/-- `INSERT OR REPLACE INTO shards`: drop any row conflicting on the
`shard_hash` primary key or the `(file_hash, shard_index)` unique
constraint, then insert. -/
def insertOrReplaceRow (rows : List ShardRow) (r : ShardRow) : List ShardRow :=
  rows.filter (fun q => !(q.shard_hash == r.shard_hash ||
                          (q.file_hash == r.file_hash && q.shard_index == r.shard_index))) ++ [r]

/-- `StorageManager.store_shard`: quota check first (failing stores
nothing), then hash, write the file, upsert the row, update the stats. -/
def StorageManager.store_shard (max_storage_bytes : Int) (st : StorageState)
    (file_hash : String) (shard_index : Nat) (shard_data : List Nat)
    (peer_id : Option String) (expires_at : Option Nat) (now : Nat) :
    Except StorageError String × StorageState :=
  if !StorageManager.check_quota max_storage_bytes st shard_data.length then
    (.error .quotaExceeded, st)
  else
    let shard_hash := sha256Hex shard_data
    let files := writeShardFile st.files ⟨file_hash, shard_index, shard_hash, shard_data⟩
    let rows := insertOrReplaceRow st.rows
      ⟨shard_hash, file_hash, shard_index, shard_data.length, peer_id, expires_at, some now⟩
    (.ok shard_hash, ⟨files, rows, StorageManager.update_stats st.stats shard_data.length⟩)

/-- The first directory entry whose name starts `{file_hash}_{shard_index}_`. -/
def findShardFile (files : List StoredShardFile) (file_hash : String) (shard_index : Nat) :
    Option StoredShardFile :=
  files.find? (fun f => f.file_hash == file_hash && f.shard_index == shard_index)

/-- `StorageManager._update_verification`: set `last_verified = now` on the
rows keyed by the shard hash. -/
def StorageManager.update_verification (rows : List ShardRow) (shard_hash : String) (now : Nat) :
    List ShardRow :=
  rows.map (fun r => if r.shard_hash == shard_hash then { r with last_verified := some now } else r)

/-- `StorageManager.retrieve_shard`: find the file, re-read and re-hash it;
on mismatch return `None` (the spec's CorruptShard) touching nothing; on
match record the verification time and return the bytes. -/
def StorageManager.retrieve_shard (st : StorageState) (file_hash : String) (shard_index : Nat)
    (now : Nat) : Option (List Nat) × StorageState :=
  match findShardFile st.files file_hash shard_index with
  | none => (none, st)
  | some f =>
      if sha256Hex f.content ≠ f.name_hash then (none, st)
      else (some f.content,
            { st with rows := StorageManager.update_verification st.rows f.name_hash now })

/-- `StorageManager.delete_shard`: remove the first matching file, delete
its row by the hash parsed from the filename, subtract its size. -/
def StorageManager.delete_shard (st : StorageState) (file_hash : String) (shard_index : Nat) :
    Bool × StorageState :=
  match findShardFile st.files file_hash shard_index with
  | none => (false, st)
  | some f =>
      let files := st.files.eraseP
        (fun g => g.file_hash == file_hash && g.shard_index == shard_index)
      let rows := st.rows.filter (fun r => !(r.shard_hash == f.name_hash))
      (true, ⟨files, rows, StorageManager.update_stats st.stats (-(f.content.length : Int))⟩)

/-- `StorageManager.garbage_collect`: delete every shard whose row has
`expires_at < now`, count the deletions, record `last_gc = now`. -/
def StorageManager.garbage_collect (st : StorageState) (now : Nat) : Nat × StorageState :=
  let expired := st.rows.filter (fun r => match r.expires_at with
    | some t => t < now
    | none => false)
  let out := expired.foldl (fun (acc : Nat × StorageState) r =>
    let d := StorageManager.delete_shard acc.2 r.file_hash r.shard_index
    (if d.1 then acc.1 + 1 else acc.1, d.2)) (0, st)
  (out.1, { out.2 with stats := { out.2.stats with last_gc := some now } })

/-! ## Coordinator file registry (src/coordinator/server.py)

`register_file` runs against the `files` table (`FileMetadataDB` in
src/coordinator/models.py); the table is the list of records in insertion
order and `query(...).filter(file_hash == h).first()` is `List.find?`. -/

/-- The request body `FileMetadata` (src/shared/schemas.py);
`shard_locations` is the mapping shard index to peer ids. -/
structure FileMetadata where
  file_hash : String
  original_name : String
  total_size : Nat
  encrypted_size : Nat
  shards_total : Nat
  shards_required : Nat
  shard_hashes : List String
  shard_locations : List (Nat × List String)
  encryption_scheme : String
  expires_at : Option Nat
deriving DecidableEq

/-- One row of the coordinator's `files` table (`FileMetadataDB`). -/
structure FileMetadataDB where
  file_hash : String
  owner_id : String
  original_name : String
  total_size : Nat
  encrypted_size : Nat
  shards_total : Nat
  shards_required : Nat
  shard_hashes : List String
  shard_locations : List (Nat × List String)
  encryption_scheme : String
  expires_at : Option Nat
deriving DecidableEq

/-- The new row `register_file` inserts for an unknown `file_hash`
(`owner_id` is the hard-coded "anonymous"). -/
def newFileRecord (metadata : FileMetadata) : FileMetadataDB :=
  ⟨metadata.file_hash, "anonymous", metadata.original_name, metadata.total_size,
   metadata.encrypted_size, metadata.shards_total, metadata.shards_required,
   metadata.shard_hashes, metadata.shard_locations, metadata.encryption_scheme,
   metadata.expires_at⟩

/-- `POST /file/register`: when the hash is known, assign
`existing.shard_locations = metadata.shard_locations`; otherwise insert a
new row. -/
def register_file (files_table : List FileMetadataDB) (metadata : FileMetadata) :
    List FileMetadataDB :=
  if (files_table.find? (fun r => r.file_hash == metadata.file_hash)).isSome then
    files_table.map (fun r =>
      if r.file_hash == metadata.file_hash then
        { r with shard_locations := metadata.shard_locations }
      else r)
  else
    files_table ++ [newFileRecord metadata]

/-- Whether some record of the table lists `peer` as a holder of shard
`shard_index` of file `file_hash`. -/
def hasShardLocation (files_table : List FileMetadataDB) (file_hash : String)
    (shard_index : Nat) (peer : String) : Bool :=
  files_table.any (fun r => r.file_hash == file_hash &&
    r.shard_locations.any (fun p => p.1 == shard_index && p.2.contains peer))

/-! ## Node identity (src/p2p/node.py)

`_load_or_create_identity` reads `identity.json`, or generates a key pair,
derives the peer id from the public key and saves the file. The identity
file's contents (or its absence) and the freshly generated key pair are
explicit arguments. -/

/-- The contents of `identity.json`. -/
structure NodeIdentity where
  peer_id : String
  public_key : List Nat
  private_key : List Nat
deriving DecidableEq

/-- The peer id computed on first start:
`base64.b64encode(hashlib.sha256(public_key).digest()).decode()[:16]`. -/
def peerIdOf (public_key : List Nat) : String :=
  String.mk ((b64Chars (sha256 public_key)).take 16)

/-- `P2PNode._load_or_create_identity`: return the saved identity when the
file exists; otherwise build one from the fresh key pair and save it. The
result is the loaded identity and the file's contents afterwards. -/
def load_or_create_identity (identity_file : Option NodeIdentity)
    (private_key public_key : List Nat) : NodeIdentity × Option NodeIdentity :=
  match identity_file with
  | some identity => (identity, some identity)
  | none =>
      let identity : NodeIdentity :=
        ⟨peerIdOf public_key, public_key, private_key⟩
      (identity, some identity)

/-- Modelled from the spec: the 16-character URL-safe encoding the spec's
identity sentence describes (Python's `base64.urlsafe_b64encode`, the
standard alphabet with the plus sign and slash replaced by minus and
underscore), for comparison with the code's standard-alphabet `peerIdOf`. -/
def urlsafePeerIdOf (public_key : List Nat) : String :=
  String.mk (((b64Chars (sha256 public_key)).map
    (fun c => if c = '+' then '-' else if c = '/' then '_' else c)).take 16)

/-- Whether a character belongs to the URL-safe base64 alphabet
(letters, digits, minus, underscore, padding). -/
def isUrlSafeB64Char (c : Char) : Bool :=
  c.isAlphanum || c == '-' || c == '_' || c == '='

/-- A SECP256R1 public key in PEM SubjectPublicKeyInfo form, byte for byte
as `CryptoUtils.generate_key_pair` returns one: a sample input for the
peer-id computation. -/
def examplePublicKeyPem : List Nat := [45, 45, 45, 45, 45, 66, 69, 71, 73, 78, 32, 80, 85, 66, 76, 73, 67, 32, 75, 69, 89, 45, 45, 45, 45, 45, 10, 77, 70, 107, 119, 69, 119, 89, 72, 75, 111, 90, 73, 122, 106, 48, 67, 65, 81, 89, 73, 75, 111, 90, 73, 122, 106, 48, 68, 65, 81, 99, 68, 81, 103, 65, 69, 103, 89, 52, 87, 56, 114, 120, 50, 84, 81, 79, 76, 97, 87, 85, 113, 66, 43, 75, 65, 103, 75, 76, 55, 113, 73, 112, 50, 10, 90, 117, 52, 76, 111, 74, 113, 114, 122, 49, 82, 87, 108, 81, 77, 57, 85, 73, 86, 101, 98, 49, 73, 72, 43, 100, 71, 81, 105, 120, 88, 52, 109, 108, 89, 68, 101, 76, 89, 84, 75, 81, 109, 102, 81, 121, 73, 76, 109, 47, 66, 90, 106, 66, 86, 68, 113, 65, 61, 61, 10, 45, 45, 45, 45, 45, 69, 78, 68, 32, 80, 85, 66, 76, 73, 67, 32, 75, 69, 89, 45, 45, 45, 45, 45, 10]

/-! ## Merkle root (src/shared/crypto.py, compute_merkle_root) -/

/-- One pass of the tree-building loop `for i in range(0, len, 2)`: hash
`left + right` where `right` is the next hash when there is one, else a
copy of `left`. -/
def hashLevelLoop (leaf_hashes : List (List Nat)) : List (List Nat) :=
  (List.range ((leaf_hashes.length + 1) / 2)).map (fun j =>
    sha256 (leaf_hashes.getD (2 * j) [] ++
      (if 2 * j + 1 < leaf_hashes.length then leaf_hashes.getD (2 * j + 1) []
       else leaf_hashes.getD (2 * j) [])))

/-- The `while len(leaf_hashes) > 1` loop of `compute_merkle_root`. -/
def merkleLoop (leaf_hashes : List (List Nat)) : List (List Nat) :=
  if leaf_hashes.length ≤ 1 then leaf_hashes
  else merkleLoop (hashLevelLoop leaf_hashes)
termination_by leaf_hashes.length
decreasing_by simp [hashLevelLoop]; omega

/-- `CryptoUtils.compute_merkle_root`: empty input gives the empty string;
otherwise hash the chunks, fold levels until one root remains, base64 it. -/
def CryptoUtils.compute_merkle_root (data_chunks : List (List Nat)) : String :=
  if data_chunks = [] then ""
  else String.mk (b64Chars ((merkleLoop (data_chunks.map sha256)).headD []))

/-- One level of the Merkle recursion as the spec words it: hash adjacent
pairs, hashing a last unpaired node with a copy of itself. -/
def pairLevel : List (List Nat) → List (List Nat)
  | [] => []
  | [x] => [sha256 (x ++ x)]
  | x :: y :: rest => sha256 (x ++ y) :: pairLevel rest

/-- The Merkle root of a list of leaf hashes by structural recursion:
pair levels up until a single root remains. -/
def merkleRootSpec : List (List Nat) → List Nat
  | [] => []
  | [x] => x
  | x :: y :: rest => merkleRootSpec (pairLevel (x :: y :: rest))
termination_by hs => hs.length
decreasing_by
  have hb : ∀ n (l : List (List Nat)), l.length ≤ n → (pairLevel l).length ≤ l.length := by
    intro n
    induction n with
    | zero =>
        intro l hl
        cases l with
        | nil => simp [pairLevel]
        | cons a t => simp at hl
    | succ n ih =>
        intro l hl
        cases l with
        | nil => simp [pairLevel]
        | cons a t =>
            cases t with
            | nil => simp [pairLevel]
            | cons b t2 =>
                have ht2 : t2.length ≤ n := by simp at hl; omega
                have := ih t2 ht2
                simp [pairLevel]
                omega
  have := hb rest.length rest le_rfl
  simp [pairLevel]
  omega

/-! ## Transfer statistics (src/p2p/transfer.py) -/

/-- The `transfer_stats` counters of `TransferService`. -/
structure TransferStats where
  uploads : Nat
  downloads : Nat
  bytes_sent : Nat
  bytes_received : Nat
  failures : Nat
deriving DecidableEq

/-- The dict `get_transfer_stats` returns: the counters plus the derived
`success_rate`. -/
structure TransferStatsReport where
  uploads : Nat
  downloads : Nat
  bytes_sent : Nat
  bytes_received : Nat
  failures : Nat
  success_rate : ℚ

/-- `TransferService.get_transfer_stats`: copy the counters and derive
`success_rate`, dividing only when `uploads + downloads + failures > 0`
and taking 0 otherwise. -/
def TransferService.get_transfer_stats (s : TransferStats) : TransferStatsReport :=
  { uploads := s.uploads, downloads := s.downloads, bytes_sent := s.bytes_sent,
    bytes_received := s.bytes_received, failures := s.failures,
    success_rate :=
      if s.uploads + s.downloads + s.failures > 0 then
        ((s.uploads : ℚ) + s.downloads) / ((s.uploads : ℚ) + s.downloads + s.failures)
      else 0 }

/-! ## Sanity checks of the embedded primitives -/

/-- SHA-256 of the empty string matches the standard test vector. -/
theorem sha256_empty_vector : sha256 [] = [227, 176, 196, 66, 152, 252, 28, 20, 154, 251, 244, 200, 153, 111, 185, 36, 39, 174, 65, 228, 100, 155, 147, 76, 164, 149, 153, 27, 120, 82, 184, 85] := by decide

/-- SHA-256 of "abc" matches the standard test vector. -/
theorem sha256_abc_vector : sha256 [97, 98, 99] = [186, 120, 22, 191, 143, 1, 207, 234, 65, 65, 64, 222, 93, 174, 34, 35, 176, 3, 97, 163, 150, 23, 122, 156, 180, 16, 255, 97, 242, 0, 21, 173] := by decide

/-- Base64 of "abc" is "YWJj" and of "ab" is "YWI=", as `base64.b64encode`
produces. -/
theorem b64Chars_vectors :
    b64Chars [97, 98, 99] = ['Y', 'W', 'J', 'j'] ∧
    b64Chars [97, 98] = ['Y', 'W', 'I', '='] := by decide

/-! ## Helper lemmas -/

/-- A SHA-256 digest has 32 bytes. -/
theorem sha256_length (msg : List Nat) : (sha256 msg).length = 32 := by
  simp [sha256, wordBytesBE]

/-- Base64 produces four characters per three-byte group, rounding up. -/
theorem b64Chars_length : ∀ bs : List Nat, (b64Chars bs).length = 4 * ((bs.length + 2) / 3)
  | [] => rfl
  | [_] => by simp [b64Chars]
  | [_, _] => by simp [b64Chars]
  | _ :: _ :: _ :: rest => by
      simp [b64Chars, b64Chars_length rest]
      omega

/-- Wrapping every shard in `some` and filtering absences is the identity. -/
theorem filterMap_map_some (sel : List (Nat × List Nat)) :
    (sel.map (fun p => (p.1, (some p.2 : Option (List Nat))))).filterMap
      (fun p => p.2.map (fun s => (p.1, s))) = sel := by
  induction sel with
  | nil => rfl
  | cons p t ih => simp [ih]

/-- Splitting a list of length `k * cs` into the `k` consecutive slices of
width `cs` and concatenating them gives the list back. -/
theorem range_chunks_join : ∀ (k : Nat) (cs : Nat) (l : List Nat), l.length = k * cs →
    ((List.range k).map (fun i => ((l.drop (i * cs)).take cs))).flatten = l
  | 0, cs, l, h => by
      simp at h
      simp [h]
  | k + 1, cs, l, h => by
      rw [List.range_succ_eq_map]
      simp only [List.map_cons, List.map_map, List.flatten_cons, Nat.zero_mul, List.drop_zero]
      have htail : ((List.range k).map (fun i => (((l.drop cs).drop (i * cs)).take cs))).flatten
          = l.drop cs := by
        apply range_chunks_join
        rw [Nat.succ_mul] at h
        rw [List.length_drop]
        omega
      have hcomp : ((fun i => ((l.drop (i * cs)).take cs)) ∘ Nat.succ)
          = fun i => (((l.drop cs).drop (i * cs)).take cs) := by
        funext i
        simp only [Function.comp_apply, List.drop_drop]
        rw [Nat.succ_mul, Nat.add_comm]
      rw [hcomp, htail, List.take_append_drop]


/-- Each of the `k` slices of a list of length `k * cs` has length `cs`. -/
theorem range_chunk_length (k cs i : Nat) (l : List Nat) (h : l.length = k * cs) (hik : i < k) :
    ((l.drop (i * cs)).take cs).length = cs := by
  rw [List.length_take, List.length_drop]
  have hmul : (i + 1) * cs ≤ k * cs := Nat.mul_le_mul_right cs hik
  rw [Nat.succ_mul] at hmul
  omega

/-- The erasure pad amount is below `k`. -/
theorem erasure_pad_lt (k len : Nat) (hk : 0 < k) : erasurePaddingLength k len < k :=
  Nat.mod_lt _ hk

/-- Padding by `(k - len % k) % k` reaches a multiple of `k`. -/
theorem erasure_pad_mod (k len : Nat) (hk : 0 < k) : (len + erasurePaddingLength k len) % k = 0 := by
  unfold erasurePaddingLength
  by_cases h : len % k = 0
  · rw [h, Nat.sub_zero, Nat.mod_self, Nat.add_zero, h]
  · have h1 : len % k < k := Nat.mod_lt _ hk
    have h2 : k - len % k < k := by omega
    rw [Nat.mod_eq_of_lt h2, Nat.add_mod]
    rw [Nat.mod_eq_of_lt h2]
    rw [show len % k + (k - len % k) = k from by omega, Nat.mod_self]

/-- Stripping trailing zeros from a list padded with zeros recovers the
list, provided the list itself does not end in a zero byte. -/
theorem rstripZeros_append_replicate (x : List Nat) (p : Nat) (hlast : x.getLast? ≠ some 0) :
    rstripZeros (x ++ List.replicate p 0) = x := by
  unfold rstripZeros
  rw [List.reverse_append, List.reverse_replicate]
  have hdrop0 : ∀ q : Nat, (List.replicate q 0 ++ x.reverse).dropWhile (· == 0)
      = x.reverse.dropWhile (· == 0) := by
    intro q
    induction q with
    | zero => simp
    | succ q ih => simp [List.replicate_succ, List.dropWhile_cons, ih]
  rw [hdrop0]
  have hsame : x.reverse.dropWhile (· == 0) = x.reverse := by
    cases hx : x.reverse with
    | nil => simp
    | cons a t =>
        have ha : x.getLast? = some a := by
          rw [← List.head?_reverse, hx]
          rfl
        have hne : (a == 0) = false := by
          rcases eq_or_ne a 0 with h0 | h0
          · exact absurd (h0 ▸ ha) hlast
          · simp [h0]
        simp [List.dropWhile_cons, hne]
  rw [hsame, List.reverse_reverse]

/-- The number of present shards is the count of `some` entries. -/
theorem length_filterMap_isSome (shards : List (Nat × Option (List Nat))) :
    (shards.filterMap (fun p => p.2.map (fun s => (p.1, s)))).length
      = shards.countP (fun p => p.2.isSome) := by
  induction shards with
  | nil => rfl
  | cons p t ih => cases hp : p.2 <;> simp [List.filterMap_cons, hp, ih, List.countP_cons]

/-- A pairing level halves the node count, rounding up. -/
theorem pairLevel_length : ∀ hs : List (List Nat), (pairLevel hs).length = (hs.length + 1) / 2
  | [] => rfl
  | [_] => by simp [pairLevel]
  | _ :: _ :: rest => by
      simp [pairLevel, pairLevel_length rest]
      omega

/-- Unfolding the indexed level pass over two leading nodes. -/
theorem hashLevelLoop_cons_cons (x y : List Nat) (rest : List (List Nat)) :
    hashLevelLoop (x :: y :: rest) = sha256 (x ++ y) :: hashLevelLoop rest := by
  unfold hashLevelLoop
  rw [show ((x :: y :: rest).length + 1) / 2 = (rest.length + 1) / 2 + 1 from by simp; omega]
  rw [List.range_succ_eq_map, List.map_cons, List.map_map]
  congr 1
  · rw [if_pos (by simp)]
    rfl
  · apply List.map_congr_left
    intro j hj
    have hgd : ∀ m : Nat, (x :: y :: rest).getD (m + 2) [] = rest.getD m [] := fun m => rfl
    simp only [Function.comp_apply, List.length_cons]
    by_cases hc : 2 * j + 1 < rest.length
    · rw [if_pos (by omega), if_pos hc]
      rw [show 2 * (j + 1) = 2 * j + 2 from by ring]
      rw [show 2 * j + 2 + 1 = (2 * j + 1) + 2 from rfl]
      rw [hgd, hgd]
    · rw [if_neg (by omega), if_neg hc]
      rw [show 2 * (j + 1) = 2 * j + 2 from by ring]
      rw [hgd]

/-- The indexed `for i in range(0, len, 2)` level pass computes the
structural pairing level. -/
theorem hashLevelLoop_eq_pairLevel : ∀ hs : List (List Nat), hashLevelLoop hs = pairLevel hs
  | [] => rfl
  | [x] => by
      simp [hashLevelLoop, pairLevel, show List.range 1 = [0] from rfl]
  | x :: y :: rest => by
      rw [hashLevelLoop_cons_cons, pairLevel, hashLevelLoop_eq_pairLevel rest]

/-- The `while` loop of `compute_merkle_root` reaches exactly the
structural Merkle root (fuel-indexed strong induction on the level size). -/
theorem merkleLoop_eq_spec_aux : ∀ (n : Nat) (hs : List (List Nat)), hs.length ≤ n → hs ≠ [] →
    merkleLoop hs = [merkleRootSpec hs]
  | _, [], _, hne => absurd rfl hne
  | _, [x], _, _ => by
      rw [merkleLoop]
      simp [merkleRootSpec]
  | 0, x :: y :: rest, hlen, _ => by simp at hlen
  | n + 1, x :: y :: rest, hlen, _ => by
      rw [merkleLoop]
      rw [if_neg (by simp)]
      rw [hashLevelLoop_eq_pairLevel]
      have h1 : (pairLevel (x :: y :: rest)).length ≤ n := by
        rw [pairLevel_length]
        simp at hlen ⊢
        omega
      have h2 : pairLevel (x :: y :: rest) ≠ [] := by
        intro hc
        have hpl := pairLevel_length (x :: y :: rest)
        rw [hc] at hpl
        simp at hpl
        omega
      rw [merkleLoop_eq_spec_aux n _ h1 h2]
      conv_rhs => rw [merkleRootSpec]

/-- A stats update moves `total_bytes` by exactly the delta. -/
theorem update_stats_total_bytes (s : StorageStats) (d : Int) :
    (StorageManager.update_stats s d).total_bytes = s.total_bytes + d := by
  unfold StorageManager.update_stats
  split <;> rfl

/-- Deleting a shard never increases `total_bytes`, so it preserves any
upper bound. -/
theorem delete_shard_total_bytes_le (st : StorageState) (fh : String) (idx : Nat) (q : Int)
    (h : st.stats.total_bytes ≤ q) :
    ((StorageManager.delete_shard st fh idx).2).stats.total_bytes ≤ q := by
  unfold StorageManager.delete_shard
  cases hf : findShardFile st.files fh idx with
  | none => exact h
  | some f =>
      simp only [update_stats_total_bytes]
      have hpos : (0 : Int) ≤ (f.content.length : Int) := Int.ofNat_nonneg _
      omega

/-- The garbage-collection fold over expired rows preserves any upper
bound on `total_bytes`. -/
theorem gc_fold_total_bytes_le : ∀ (rows : List ShardRow) (st : StorageState) (acc : Nat) (q : Int),
    st.stats.total_bytes ≤ q →
    ((rows.foldl (fun (acc : Nat × StorageState) r =>
        let d := StorageManager.delete_shard acc.2 r.file_hash r.shard_index
        (if d.1 then acc.1 + 1 else acc.1, d.2)) (acc, st)).2).stats.total_bytes ≤ q
  | [], _, _, _, h => h
  | r :: rest, st, acc, q, h => by
      simp only [List.foldl_cons]
      exact gc_fold_total_bytes_le rest _ _ q (delete_shard_total_bytes_le st _ _ q h)

/-! ## The claims -/

/-- C1. Erasure round-trip: for every non-empty byte string `x` that does
not end in a zero byte, decoding any subset of at least k of the n shards
produced by `ErasureCoder.encode x` (each shard paired with its index)
returns exactly `x`. The selected shards form a sublist of the indexed
encoder output; the hypothesis `hdec` is the zfec decoder contract at this
selection (any k of the n shards of a (k, n) code reconstruct the k
primary chunks). -/
theorem erasure_encode_decode_roundtrip (c : ErasureCoder) (x : List Nat)
    (sel : List (Nat × List Nat))
    (hk : 0 < c.required_shards)
    (_hx : x ≠ [])
    (hlast : x.getLast? ≠ some 0)
    (_hsub : sel.Sublist (c.encode x).enum)
    (hlen : c.required_shards ≤ sel.length)
    (hdec : c.decoder (sel.map Prod.snd) (sel.map Prod.fst) = c.chunks x) :
    c.decode (sel.map (fun p => (p.1, some p.2))) = .ok x := by
  unfold ErasureCoder.decode
  rw [filterMap_map_some]
  rw [if_neg (by omega)]
  rw [hdec]
  have hjoin : (c.chunks x).flatten = c.paddedData x := by
    unfold ErasureCoder.chunks
    apply range_chunks_join
    have hdvd : c.required_shards ∣ (c.paddedData x).length := by
      apply Nat.dvd_of_mod_eq_zero
      unfold ErasureCoder.paddedData
      rw [List.length_append, List.length_replicate]
      exact erasure_pad_mod _ _ hk
    exact (Nat.mul_div_cancel' hdvd).symm
  rw [hjoin]
  unfold ErasureCoder.paddedData
  rw [rstripZeros_append_replicate x _ hlast]

/-- C1 witness: a concrete round trip through the (2, 3) XOR codec, with
`x = [1, 2, 3]` reconstructed from shards 1 and 2 alone (shard 0
dropped). -/
theorem erasure_encode_decode_roundtrip_witness :
    xorCoder.decode [(1, some [3, 0]), (2, some [2, 2])] = .ok [1, 2, 3] :=
  erasure_encode_decode_roundtrip xorCoder [1, 2, 3] [(1, [3, 0]), (2, [2, 2])]
    (by decide) (by decide) (by decide) (by decide) (by decide) (by decide)

/-- C3. For every input list of (index, shard) pairs in which fewer than k
entries have a non-absent shard, `ErasureCoder.decode` fails with
InsufficientShards (carrying k and the present-shard count); it never
reaches the decoder. -/
theorem decode_insufficient_shards (c : ErasureCoder)
    (shards : List (Nat × Option (List Nat)))
    (hcount : shards.countP (fun p => p.2.isSome) < c.required_shards) :
    c.decode shards = .error (.insufficientShards c.required_shards
      (shards.countP (fun p => p.2.isSome))) := by
  unfold ErasureCoder.decode
  simp only [length_filterMap_isSome]
  rw [if_pos hcount]

/-- C3 witness: one present shard out of three against k = 2. -/
theorem decode_insufficient_shards_witness :
    xorCoder.decode [(0, some [1]), (1, none), (2, none)] =
      .error (.insufficientShards 2 1) :=
  decode_insufficient_shards xorCoder [(0, some [1]), (1, none), (2, none)] (by decide)

/-- C4. `ErasureCoder.encode` pads with exactly `(k - len % k) % k` zero
bytes (reaching the smallest multiple of k, since the pad is below k),
splits the padded buffer in order into k equal chunks, and — under the
zfec systematic-codec contract at these chunks (`hfec_len`, `hfec_each`,
`hfec_sys`) — returns n shards of equal length whose first k shards are
the input chunks. -/
theorem encode_systematic_padding (c : ErasureCoder) (data : List Nat)
    (hk : 0 < c.required_shards)
    (hfec_len : (c.fec (c.chunks data)).length = c.total_shards)
    (hfec_each : ∀ s ∈ c.fec (c.chunks data),
      s.length = (c.paddedData data).length / c.required_shards)
    (hfec_sys : (c.fec (c.chunks data)).take c.required_shards = c.chunks data) :
    (c.paddedData data).length
        = data.length + erasurePaddingLength c.required_shards data.length
    ∧ erasurePaddingLength c.required_shards data.length < c.required_shards
    ∧ c.required_shards ∣ (c.paddedData data).length
    ∧ (c.chunks data).length = c.required_shards
    ∧ (∀ ch ∈ c.chunks data, ch.length = (c.paddedData data).length / c.required_shards)
    ∧ (c.chunks data).flatten = c.paddedData data
    ∧ (c.encode data).length = c.total_shards
    ∧ (∀ s ∈ c.encode data, s.length = (c.paddedData data).length / c.required_shards)
    ∧ (c.encode data).take c.required_shards = c.chunks data := by
  have hdvd : c.required_shards ∣ (c.paddedData data).length := by
    apply Nat.dvd_of_mod_eq_zero
    unfold ErasureCoder.paddedData
    rw [List.length_append, List.length_replicate]
    exact erasure_pad_mod _ _ hk
  have hklen : (c.paddedData data).length
      = c.required_shards * ((c.paddedData data).length / c.required_shards) :=
    (Nat.mul_div_cancel' hdvd).symm
  refine ⟨?_, erasure_pad_lt _ _ hk, hdvd, ?_, ?_, ?_, hfec_len, hfec_each, hfec_sys⟩
  · unfold ErasureCoder.paddedData
    rw [List.length_append, List.length_replicate]
  · unfold ErasureCoder.chunks
    simp
  · intro ch hch
    unfold ErasureCoder.chunks at hch
    simp only [List.mem_map, List.mem_range] at hch
    obtain ⟨i, hi, hich⟩ := hch
    rw [← hich]
    exact range_chunk_length _ _ _ _ hklen hi
  · unfold ErasureCoder.chunks
    exact range_chunks_join _ _ _ hklen

/-- C4 witness: the (2, 3) XOR codec on `[1, 2, 3]` — one pad byte, chunks
`[1, 2]` and `[3, 0]`, three equal-length shards, first two systematic. -/
theorem encode_systematic_padding_witness :
    (xorCoder.paddedData [1, 2, 3]).length = 3 + erasurePaddingLength 2 3
    ∧ erasurePaddingLength 2 3 < 2
    ∧ 2 ∣ (xorCoder.paddedData [1, 2, 3]).length
    ∧ (xorCoder.chunks [1, 2, 3]).length = 2
    ∧ (∀ ch ∈ xorCoder.chunks [1, 2, 3],
        ch.length = (xorCoder.paddedData [1, 2, 3]).length / 2)
    ∧ (xorCoder.chunks [1, 2, 3]).flatten = xorCoder.paddedData [1, 2, 3]
    ∧ (xorCoder.encode [1, 2, 3]).length = 3
    ∧ (∀ s ∈ xorCoder.encode [1, 2, 3],
        s.length = (xorCoder.paddedData [1, 2, 3]).length / 2)
    ∧ (xorCoder.encode [1, 2, 3]).take 2 = xorCoder.chunks [1, 2, 3] :=
  encode_systematic_padding xorCoder [1, 2, 3] (by decide) (by decide) (by decide) (by decide)

/-- C2. Retrieving a file stored under password `p1` with a different
password `p2` fails with the Integrity error, as does decrypting a
tampered ciphertext; and `decrypt_file` fails exactly when the AES-GCM tag
does not verify under the key derived from the supplied password and the
stored salt — the only failure it can signal. `hkdf` (distinct passwords
derive distinct keys) and `hwrong` (opening under the wrong key fails tag
verification) state the PBKDF2/AES-GCM contract at this instance. -/
theorem wrong_password_integrity (cp : CryptoPrim) (x : List Nat) (p1 p2 : String)
    (salt nonce : List Nat)
    (_hpw : p1 ≠ p2)
    (_hkdf : cp.pbkdf2_sha256 p1 salt ≠ cp.pbkdf2_sha256 p2 salt)
    (hwrong : cp.aesgcm_decrypt (cp.pbkdf2_sha256 p2 salt) nonce
        (FileEncryptor.encrypt_file cp x p1 salt nonce).1 = none) :
    FileEncryptor.decrypt_file cp (FileEncryptor.encrypt_file cp x p1 salt nonce).1 p2
        (FileEncryptor.encrypt_file cp x p1 salt nonce).2 = .error .integrity
    ∧ (∀ ct : List Nat, cp.aesgcm_decrypt (cp.pbkdf2_sha256 p1 salt) nonce ct = none →
        FileEncryptor.decrypt_file cp ct p1 (FileEncryptor.encrypt_file cp x p1 salt nonce).2
          = .error .integrity)
    ∧ (∀ (ct : List Nat) (p : String),
        FileEncryptor.decrypt_file cp ct p (FileEncryptor.encrypt_file cp x p1 salt nonce).2
            = .error .integrity
          ↔ cp.aesgcm_decrypt (cp.pbkdf2_sha256 p salt) nonce ct = none) := by
  refine ⟨?_, ?_, ?_⟩
  · unfold FileEncryptor.encrypt_file CryptoUtils.encrypt_data CryptoUtils.derive_key at hwrong
    simp only at hwrong
    unfold FileEncryptor.decrypt_file FileEncryptor.encrypt_file CryptoUtils.decrypt_data
      CryptoUtils.derive_key CryptoUtils.encrypt_data
    simp only
    rw [hwrong]
  · intro ct hct
    unfold FileEncryptor.decrypt_file FileEncryptor.encrypt_file CryptoUtils.decrypt_data
      CryptoUtils.derive_key CryptoUtils.encrypt_data
    simp only
    rw [hct]
  · intro ct p
    unfold FileEncryptor.decrypt_file FileEncryptor.encrypt_file CryptoUtils.decrypt_data
      CryptoUtils.derive_key CryptoUtils.encrypt_data
    simp only
    cases hdec : cp.aesgcm_decrypt (cp.pbkdf2_sha256 p salt) nonce ct <;> simp [hdec]

/-- C2 witness: under the concrete tagging primitives, storing `[1]` with
password "ab" and retrieving with password "c" fails with Integrity. -/
theorem wrong_password_integrity_witness :
    FileEncryptor.decrypt_file taggingPrim
        (FileEncryptor.encrypt_file taggingPrim [1] "ab" [7] [9]).1 "c"
        (FileEncryptor.encrypt_file taggingPrim [1] "ab" [7] [9]).2 = .error .integrity :=
  (wrong_password_integrity taggingPrim [1] "ab" "c" [7] [9]
    (by decide) (by decide) (by decide)).1

/-- C5. `store_shard` fails with QuotaExceeded exactly when
`total_bytes + len(shard_data) > quota`, and in that case stores nothing
(the state is unchanged); after every successful `store_shard`, and after
`delete_shard` or `garbage_collect` from any state within quota, the
invariant `total_bytes ≤ quota` holds (equality allowed). -/
theorem store_shard_quota_invariant (max_storage_bytes : Int) (st : StorageState)
    (file_hash : String) (shard_index : Nat) (shard_data : List Nat)
    (peer_id : Option String) (expires_at : Option Nat) (now : Nat) :
    ((StorageManager.store_shard max_storage_bytes st file_hash shard_index shard_data
        peer_id expires_at now).1 = .error .quotaExceeded
      ↔ max_storage_bytes < st.stats.total_bytes + shard_data.length)
    ∧ (max_storage_bytes < st.stats.total_bytes + shard_data.length →
        (StorageManager.store_shard max_storage_bytes st file_hash shard_index shard_data
          peer_id expires_at now).2 = st)
    ∧ (∀ h : String,
        (StorageManager.store_shard max_storage_bytes st file_hash shard_index shard_data
          peer_id expires_at now).1 = .ok h →
        ((StorageManager.store_shard max_storage_bytes st file_hash shard_index shard_data
          peer_id expires_at now).2).stats.total_bytes ≤ max_storage_bytes)
    ∧ (st.stats.total_bytes ≤ max_storage_bytes →
        ((StorageManager.delete_shard st file_hash shard_index).2).stats.total_bytes
          ≤ max_storage_bytes)
    ∧ (st.stats.total_bytes ≤ max_storage_bytes →
        ((StorageManager.garbage_collect st now).2).stats.total_bytes ≤ max_storage_bytes) := by
  refine ⟨?_, ?_, ?_, ?_, ?_⟩
  · unfold StorageManager.store_shard StorageManager.check_quota
    by_cases hq : st.stats.total_bytes + (shard_data.length : Int) ≤ max_storage_bytes
    · simp [hq]
      try omega
    · simp [hq]
      try omega
  · intro hover
    have hq : ¬(st.stats.total_bytes + (shard_data.length : Int) ≤ max_storage_bytes) := by
      omega
    unfold StorageManager.store_shard StorageManager.check_quota
    simp [hq]
  · intro h hok
    unfold StorageManager.store_shard StorageManager.check_quota at hok ⊢
    by_cases hq : st.stats.total_bytes + (shard_data.length : Int) ≤ max_storage_bytes
    · simp [hq, update_stats_total_bytes]
      try omega
    · simp [hq] at hok
  · intro hinv
    exact delete_shard_total_bytes_le st _ _ _ hinv
  · intro hinv
    unfold StorageManager.garbage_collect
    simp only
    exact gc_fold_total_bytes_le _ _ _ _ hinv

/-- C5 witness: storing three bytes in an empty store with quota 10 keeps
`total_bytes` within the quota. -/
theorem store_shard_quota_invariant_witness :
    ((StorageManager.store_shard 10 ⟨[], [], ⟨0, 0, none⟩⟩ "f" 0 [1, 2, 3]
        none none 5).2).stats.total_bytes ≤ 10 :=
  (store_shard_quota_invariant 10 ⟨[], [], ⟨0, 0, none⟩⟩ "f" 0 [1, 2, 3]
    none none 5).2.2.1 (sha256Hex [1, 2, 3]) rfl

/-- C6. `retrieve_shard` re-reads and re-hashes the stored bytes: when the
computed SHA-256 hex digest differs from the hash recorded in the filename
it fails (returns `none`, the spec's CorruptShard) and leaves the whole
state — in particular every `last_verified` — unchanged; when they match
it sets `last_verified = now` on the shard's rows and returns the bytes. -/
theorem retrieve_shard_integrity_check (st : StorageState) (file_hash : String)
    (shard_index : Nat) (now : Nat) (f : StoredShardFile)
    (hfind : findShardFile st.files file_hash shard_index = some f) :
    (sha256Hex f.content ≠ f.name_hash →
        StorageManager.retrieve_shard st file_hash shard_index now = (none, st))
    ∧ (sha256Hex f.content = f.name_hash →
        StorageManager.retrieve_shard st file_hash shard_index now =
          (some f.content,
           ⟨st.files, StorageManager.update_verification st.rows f.name_hash now, st.stats⟩)) := by
  constructor
  · intro hne
    unfold StorageManager.retrieve_shard
    rw [hfind]
    dsimp only
    rw [if_pos hne]
  · intro heq
    unfold StorageManager.retrieve_shard
    rw [hfind]
    dsimp only
    rw [if_neg (not_not_intro heq)]

/-- C6 witness: retrieving an intact stored shard returns its bytes and
stamps the verification time. -/
theorem retrieve_shard_integrity_check_witness :
    StorageManager.retrieve_shard
        ⟨[⟨"f", 0, sha256Hex [1, 2, 3], [1, 2, 3]⟩],
         [⟨sha256Hex [1, 2, 3], "f", 0, 3, none, none, some 1⟩], ⟨1, 3, none⟩⟩ "f" 0 9
      = (some [1, 2, 3],
         ⟨[⟨"f", 0, sha256Hex [1, 2, 3], [1, 2, 3]⟩],
          StorageManager.update_verification
            [⟨sha256Hex [1, 2, 3], "f", 0, 3, none, none, some 1⟩] (sha256Hex [1, 2, 3]) 9,
          ⟨1, 3, none⟩⟩) :=
  (retrieve_shard_integrity_check
    ⟨[⟨"f", 0, sha256Hex [1, 2, 3], [1, 2, 3]⟩],
     [⟨sha256Hex [1, 2, 3], "f", 0, 3, none, none, some 1⟩], ⟨1, 3, none⟩⟩
    "f" 0 9 ⟨"f", 0, sha256Hex [1, 2, 3], [1, 2, 3]⟩ rfl).2 rfl

/-- C7 counterexample. Re-registering a known `file_hash` with a new
`shard_locations` mapping removes the previously stored locations: after
registering file "h" with shard 0 on peer "A" and re-registering with
shard 1 on peer "B", the pair (0, "A") is gone — refuting the claim that
re-registration never removes existing shard locations. -/
theorem register_file_drops_location :
    hasShardLocation
        (register_file []
          ⟨"h", "a.txt", 3, 19, 3, 2, ["x", "y", "z"], [(0, ["A"])], "AES-256-GCM", none⟩)
        "h" 0 "A" = true
    ∧ hasShardLocation
        (register_file
          (register_file []
            ⟨"h", "a.txt", 3, 19, 3, 2, ["x", "y", "z"], [(0, ["A"])], "AES-256-GCM", none⟩)
          ⟨"h", "a.txt", 3, 19, 3, 2, ["x", "y", "z"], [(1, ["B"])], "AES-256-GCM", none⟩)
        "h" 0 "A" = false := by decide

/-- C7 (amended). Re-registering an already-known `file_hash` replaces the
stored `shard_locations` with the supplied mapping — pairs absent from the
new mapping are removed — and modifies nothing else: the table keeps its
length, records with other hashes are untouched, and the matching record
keeps every field except `shard_locations`. -/
theorem register_file_replaces_locations (files_table : List FileMetadataDB)
    (metadata : FileMetadata)
    (hknown : (files_table.find? (fun r => r.file_hash == metadata.file_hash)).isSome) :
    (register_file files_table metadata).length = files_table.length
    ∧ (∀ r' ∈ register_file files_table metadata,
        r'.file_hash ≠ metadata.file_hash → r' ∈ files_table)
    ∧ (∀ r' ∈ register_file files_table metadata, r'.file_hash = metadata.file_hash →
        r'.shard_locations = metadata.shard_locations
        ∧ ∃ r ∈ files_table, r.file_hash = metadata.file_hash
            ∧ r' = { r with shard_locations := metadata.shard_locations })
    ∧ (∀ r ∈ files_table, r.file_hash ≠ metadata.file_hash →
        r ∈ register_file files_table metadata) := by
  unfold register_file
  rw [if_pos hknown]
  refine ⟨List.length_map _ _, ?_, ?_, ?_⟩
  · intro r' hmem hne
    obtain ⟨r, hr, hmap⟩ := List.mem_map.mp hmem
    by_cases hh : r.file_hash = metadata.file_hash
    · exfalso
      apply hne
      rw [← hmap]
      simp [hh]
    · rw [← hmap]
      simp only [beq_iff_eq, if_neg hh]
      exact hr
  · intro r' hmem hhash
    obtain ⟨r, hr, hmap⟩ := List.mem_map.mp hmem
    by_cases hh : r.file_hash = metadata.file_hash
    · constructor
      · rw [← hmap]
        simp [hh]
      · refine ⟨r, hr, hh, ?_⟩
        rw [← hmap]
        simp [hh]
    · rw [← hmap] at hhash
      simp only [beq_iff_eq, if_neg hh] at hhash
      exact absurd hhash hh
  · intro r hr hne
    apply List.mem_map.mpr
    refine ⟨r, hr, ?_⟩
    simp only [beq_iff_eq, if_neg hne]

/-- C7 witness: re-registering the one-record table keeps its length. -/
theorem register_file_replaces_locations_witness :
    (register_file
      [⟨"h", "anonymous", "a.txt", 3, 19, 3, 2, ["x", "y", "z"], [(0, ["A"])],
        "AES-256-GCM", none⟩]
      ⟨"h", "a.txt", 3, 19, 3, 2, ["x", "y", "z"], [(1, ["B"])], "AES-256-GCM", none⟩).length
      = 1 :=
  (register_file_replaces_locations
    [⟨"h", "anonymous", "a.txt", 3, 19, 3, 2, ["x", "y", "z"], [(0, ["A"])],
      "AES-256-GCM", none⟩]
    ⟨"h", "a.txt", 3, 19, 3, 2, ["x", "y", "z"], [(1, ["B"])], "AES-256-GCM", none⟩
    (by decide)).1

/-- C8 counterexample. On the sample SECP256R1 public key PEM, the peer id
the code computes is "R/p0I9ExAtWvZJp3": it contains a slash, so it is not
a URL-safe encoding, and it differs from the URL-safe base64 prefix of the
same digest — refuting the claim that `peer_id` is a URL-safe encoding. -/
theorem peer_id_not_urlsafe :
    peerIdOf examplePublicKeyPem = "R/p0I9ExAtWvZJp3"
    ∧ ("R/p0I9ExAtWvZJp3".data.all isUrlSafeB64Char) = false
    ∧ urlsafePeerIdOf examplePublicKeyPem ≠ peerIdOf examplePublicKeyPem := by
  refine ⟨by decide, by decide, by decide⟩

/-- C8 (amended). On first start the peer id is the first 16 characters of
the standard (not URL-safe) base64 encoding of SHA-256 over the public
key: a 16-character deterministic function of the public key, saved to the
identity file; on any later start the identity is loaded from the file
unchanged, so the peer id is stable across restarts. -/
theorem peer_id_deterministic_stable :
    (∀ private_key public_key : List Nat,
        load_or_create_identity none private_key public_key
          = (⟨peerIdOf public_key, public_key, private_key⟩,
             some ⟨peerIdOf public_key, public_key, private_key⟩))
    ∧ (∀ public_key : List Nat, (peerIdOf public_key).length = 16)
    ∧ (∀ (identity : NodeIdentity) (pk pub : List Nat),
        load_or_create_identity (some identity) pk pub = (identity, some identity))
    ∧ (∀ pk pub pk' pub' : List Nat,
        ((load_or_create_identity
            (load_or_create_identity none pk pub).2 pk' pub').1).peer_id = peerIdOf pub) := by
  refine ⟨fun pk pub => rfl, ?_, fun identity pk pub => rfl, fun pk pub pk' pub' => rfl⟩
  intro pub
  show ((b64Chars (sha256 pub)).take 16).length = 16
  rw [List.length_take, b64Chars_length, sha256_length]
  decide

/-- C9. `compute_merkle_root` applied to the empty chunk list returns the
empty string; for every non-empty list it returns the base64 encoding of
the SHA-256 Merkle root in which a level's last unpaired node is hashed
with a copy of itself (the structural recursion `merkleRootSpec`). -/
theorem compute_merkle_root_total :
    CryptoUtils.compute_merkle_root [] = ""
    ∧ ∀ chunks : List (List Nat), chunks ≠ [] →
        CryptoUtils.compute_merkle_root chunks
          = String.mk (b64Chars (merkleRootSpec (chunks.map sha256))) := by
  constructor
  · rfl
  · intro chunks hne
    unfold CryptoUtils.compute_merkle_root
    rw [if_neg hne]
    rw [merkleLoop_eq_spec_aux (chunks.map sha256).length _ le_rfl (by simpa using hne)]
    rfl

/-- C9 witness: the Merkle root of the single chunk `[104]`. -/
theorem compute_merkle_root_total_witness :
    CryptoUtils.compute_merkle_root [[104]]
      = String.mk (b64Chars (merkleRootSpec ([[104]].map sha256))) :=
  compute_merkle_root_total.2 [[104]] (by decide)

/-- C10. `get_transfer_stats` is total: it copies the five counters, the
derived `success_rate` is 0 when `uploads + downloads + failures = 0` (the
division is guarded, never evaluated with a zero denominator), otherwise
it is `(uploads + downloads) / (uploads + downloads + failures)`, and it
always lies in [0, 1]. -/
theorem get_transfer_stats_total (s : TransferStats) :
    ((TransferService.get_transfer_stats s).uploads = s.uploads
      ∧ (TransferService.get_transfer_stats s).downloads = s.downloads
      ∧ (TransferService.get_transfer_stats s).bytes_sent = s.bytes_sent
      ∧ (TransferService.get_transfer_stats s).bytes_received = s.bytes_received
      ∧ (TransferService.get_transfer_stats s).failures = s.failures)
    ∧ (s.uploads + s.downloads + s.failures = 0 →
        (TransferService.get_transfer_stats s).success_rate = 0)
    ∧ (0 < s.uploads + s.downloads + s.failures →
        (TransferService.get_transfer_stats s).success_rate
          = ((s.uploads : ℚ) + s.downloads) / ((s.uploads : ℚ) + s.downloads + s.failures))
    ∧ 0 ≤ (TransferService.get_transfer_stats s).success_rate
    ∧ (TransferService.get_transfer_stats s).success_rate ≤ 1 := by
  unfold TransferService.get_transfer_stats
  refine ⟨⟨rfl, rfl, rfl, rfl, rfl⟩, ?_, ?_, ?_, ?_⟩
  · intro h0
    simp [h0]
  · intro hpos
    simp only
    rw [if_pos hpos]
  · simp only
    by_cases hpos : 0 < s.uploads + s.downloads + s.failures
    · rw [if_pos hpos]
      positivity
    · rw [if_neg hpos]
  · simp only
    by_cases hpos : 0 < s.uploads + s.downloads + s.failures
    · rw [if_pos hpos]
      have hfz : (0 : ℚ) ≤ (s.failures : ℚ) := by positivity
      have hden : (0 : ℚ) < (s.uploads : ℚ) + s.downloads + s.failures := by
        have h' : (0 : ℚ) < ((s.uploads + s.downloads + s.failures : Nat) : ℚ) := by
          exact_mod_cast hpos
        push_cast at h'
        linarith
      apply div_le_one_of_le₀
      · linarith
      · linarith
    · rw [if_neg hpos]
      norm_num

/-- C10 witness: two uploads, one download, one failure give success rate
3/4 by the guarded formula. -/
theorem get_transfer_stats_total_witness :
    (TransferService.get_transfer_stats ⟨2, 1, 0, 0, 1⟩).success_rate
      = (((2 : Nat) : ℚ) + ((1 : Nat) : ℚ))
        / (((2 : Nat) : ℚ) + ((1 : Nat) : ℚ) + ((1 : Nat) : ℚ)) :=
  (get_transfer_stats_total ⟨2, 1, 0, 0, 1⟩).2.2.1 (by decide)
